import Mathlib

/-!
Verification of the odometry-ingestion core of the openRTK330 firmware:
a shallow embedding of `Platform/CAN/src/car_data.c` (CAN signal decoder
and wheel-speed aggregator) and `Platform/OpenRTK330LI/Driver/src/exit.c`
(PPS time-base synchronizer), with theorems settling the specification
claims about them.

Modelling conventions:
* C machine integers are embedded as `Nat`/`Int`. The decoder's
  `int64_t` accumulator is represented by the `Nat` holding its 64-bit
  two's-complement pattern; where the code reads it arithmetically the
  pattern is interpreted as a signed value (`int64_as_int`). The
  sub-expressions the source computes in 32-bit `int` — the chunk
  deposit `chunk << (bitlent - bitlen)` and the sign mask
  `1 << (bitlent - 1)` — are modelled with the 32-bit width and the
  target's shift behaviour (a 32-bit shift count of 32 or more yields
  0 on the ARM core; a result with bit 31 set is sign-extended when
  converted to `int64_t`).
* C `double` values are embedded as exact rationals (`ℚ`); the only
  floating-point operations the claims mention (copying, `(a+b)*0.5`)
  are exact in IEEE double as well.
* The externally supplied collaborators (time resolver output, GPIO pin
  level, semaphore handle, GNSS flag, latched observation time) are
  passed as explicit arguments.
-/

set_option maxHeartbeats 1600000

namespace OpenRTK

/-- One row of `gOdoConfigurationStruct.odo_mesg` (user_config.h): a CAN
signal descriptor. `usage = 0x55` marks the row as enabled. -/
structure odo_mesg_t where
  usage : Nat
  mesgID : Nat
  startbit : Nat
  length : Nat
  endian : Nat
  sign : Nat
  unit : Nat
  source : Nat
  factor : ℚ
  offset : ℚ
  deriving DecidableEq

/-- `WHEEL_SPEED_STRUCT` from car_data.h, as used by car_data.c:
three speed fields, direction flag, update bitmask, week and timestamp. -/
structure WHEEL_SPEED_STRUCT where
  speed_RR : ℚ
  speed_RL : ℚ
  speed_combined : ℚ
  fwd : Nat
  update : Nat
  week : Int
  timestamp : ℚ
  deriving DecidableEq

/-- The four output cells `car_get_wheel_speed` writes through its
pointer arguments. Modelling them as explicit prior values keeps the
"pointer not written" cases observable. -/
structure CAR_SPEED_OUT where
  car_speed : ℚ
  fwd : Nat
  week : Int
  timestamp : ℚ
  deriving DecidableEq

/-- Two's-complement reading of a 64-bit pattern as `int64_t`. -/
def int64_as_int (w : Nat) : Int :=
  if w < 2 ^ 63 then (w : Int) else (w : Int) - 2 ^ 64

/-- Wrap of a mathematical integer into `int64_t` range (the ARM
target wraps two's-complement on overflow). -/
def int64_wrap (x : Int) : Int := (x + 2 ^ 63) % 2 ^ 64 - 2 ^ 63

/-- The 64-bit pattern that `value |= ... << (bitlent - bitlen)`
(car_data.c line 103) ORs into the `int64_t` accumulator. The shifted
expression is 32-bit `int` arithmetic (`data[index_byte]`, `0xff` and
the shift count are all promoted to `int`); conversion to `int64_t`
happens only at the `|=`. On the 32-bit ARM target a shift count of 32
or more yields 0, and otherwise the low 32 bits of the product are
kept and sign-extended to 64 bits when bit 31 is set. -/
def int32_chunk_bits64 (chunk p : Nat) : Nat :=
  if 32 ≤ p then 0
  else
    let w := (chunk <<< p) % 2 ^ 32
    if w < 2 ^ 31 then w else 0xFFFFFFFF00000000 + w

/-- The 64-bit pattern of `(int64_t)(1 << (bitlent - 1))`, the sign
mask of car_data.c lines 114-115, computed in 32-bit `int`: a plain
power of two up to bit 30, `INT_MIN` sign-extended to
`0xFFFFFFFF80000000` at bit 31, and 0 (ARM shift-by-32-or-more
behaviour) for larger counts. -/
def int32_one_shift (k : Nat) : Nat :=
  if k ≤ 30 then 2 ^ k
  else if k = 31 then 0xFFFFFFFF80000000
  else 0

/-- The `while (bitlen > 0)` bit-field extraction loop of
`car_can_data_process` (car_data.c lines 101-111), fuel-indexed.
State arguments after the fuel: `bitlen`, `index_byte`,
`index_bitofbyte`, `value`.  `bitlent` is the full field width, fixed
for the whole loop; `data` maps a byte index to the payload byte; the
accumulator `value` holds the `int64_t` bit pattern, and each deposit
goes through `int32_chunk_bits64` because the source computes the
shifted chunk in 32-bit `int`.
Each iteration consumes at least one bit (the entry call has
`index_bitofbyte < 8` and later iterations have it `= 0`), so fuel
equal to the field width suffices. For a descriptor passing the
big-endian fit check the byte index never underflows before the last
read, so `Nat` truncated subtraction agrees with the C `uint8_t`
decrement at every byte actually read. -/
def car_extract_loop (data : Nat → Nat) (endian bitlent : Nat) :
    Nat → Nat → Nat → Nat → Nat → Nat
  | 0, _, _, _, value => value
  | fuel + 1, bitlen, index_byte, index_bitofbyte, value =>
    if bitlen = 0 then value
    else
      let lastbitofbyte : Nat :=
        if 8 ≤ index_bitofbyte + bitlen then 0 else 8 - (index_bitofbyte + bitlen)
      let chunk : Nat := (data index_byte >>> index_bitofbyte) &&& (0xff >>> lastbitofbyte)
      car_extract_loop data endian bitlent fuel
        (bitlen - (8 - index_bitofbyte - lastbitofbyte))
        (if endian = 0 then index_byte + 1 else index_byte - 1)
        0
        (value ||| int32_chunk_bits64 chunk (bitlent - bitlen))

/-- Raw (unsigned) bit-field extraction as set up by
`car_can_data_process`: `index_byte = startbit / 8`,
`index_bitofbyte = startbit % 8`, accumulator `value = 0`. -/
def car_extract (data : Nat → Nat) (endian startbit length : Nat) : Nat :=
  car_extract_loop data endian length length length (startbit / 8) (startbit % 8) 0

/-- The sign-handling stage of `car_can_data_process` (lines 113-117):
`if (sign == 1 && (value & (1 << (bitlent-1))) != 0)
   value = -(value - (1 << (bitlent-1)))`.
`value` is the `int64_t` accumulator pattern; the mask is the 32-bit
`int` shift `1 << (bitlent - 1)` converted to `int64_t`
(`int32_one_shift`); the AND is a 64-bit bitwise test on patterns and
the update is `int64_t` arithmetic. The result is the signed value the
code feeds into `svalue = (value + offset) * factor`. -/
def car_sign_value (sign bitlent : Nat) (value : Nat) : Int :=
  if sign = 1 then
    if value &&& int32_one_shift (bitlent - 1) ≠ 0 then
      int64_wrap (-(int64_as_int value - int64_as_int (int32_one_shift (bitlent - 1))))
    else int64_as_int value
  else int64_as_int value

/-- Decoded (sign-adjusted) integer value of one descriptor applied to a
payload: the value `car_can_data_process` feeds into
`svalue = (value + offset) * factor`. -/
def car_decoded_value (m : odo_mesg_t) (data : Nat → Nat) : Int :=
  car_sign_value m.sign m.length (car_extract data m.endian m.startbit m.length)

/-- Processing of a single configured descriptor `m` by
`car_can_data_process` (the body of the `for (i = 0; i < 3; i++)` loop,
car_data.c lines 66-154), acting on the wheel-speed state `s`.
`week`/`timestamp` are the resolver outputs computed before the loop,
`gears` is `gOdoConfigurationStruct.gears`. -/
def car_process_one (gears : Fin 4 → ℚ) (stdId : Nat) (data : Nat → Nat)
    (week : Int) (timestamp : ℚ) (m : odo_mesg_t)
    (s : WHEEL_SPEED_STRUCT) : WHEEL_SPEED_STRUCT :=
  if m.usage = 0x55 then
    if m.mesgID = stdId then
      if 64 ≤ m.startbit ∨ 64 < m.length ∨ m.length = 0 ∨ 2 ≤ m.endian ∨
          2 ≤ m.sign ∨ 2 < m.unit ∨ 3 < m.source then s
      else if m.endian = 0 ∧ 64 < m.startbit + m.length then s
      else if m.endian ≠ 0 ∧ (m.startbit / 8 + 1) * 8 - m.startbit % 8 < m.length then s
      else
        let value : Int := car_decoded_value m data
        let svalue : ℚ := ((value : ℚ) + m.offset) * m.factor
        if m.source = 3 then
          if svalue = gears 0 then { s with fwd := 1 }
          else if svalue = gears 1 then { s with fwd := 0 }
          else if svalue = gears 2 then { s with fwd := 1 }
          else if svalue = gears 3 then { s with fwd := 1 }
          else s
        else
          let svalue : ℚ :=
            if m.unit = 0 then svalue / 3.6
            else if m.unit = 1 then svalue * 0.44704
            else svalue
          let s :=
            if m.source = 0 then { s with speed_RR := svalue }
            else if m.source = 1 then { s with speed_RL := svalue }
            else if m.source = 2 then { s with speed_combined := svalue }
            else s
          { s with update := s.update ||| (1 <<< m.source),
                   week := week, timestamp := timestamp }
    else s
  else s

/-- `car_can_data_process(stdId, data)` (car_data.c lines 35-155).
External inputs: `gps_start_week` (resolver week baseline) and the
`time2gpst` outputs `week`/`timestamp` for the current instant; the
function refuses the frame when `gps_start_week == -1 || timestamp < 0.0`
and otherwise runs the three configured descriptors in order. -/
def car_can_data_process (cfg : Fin 3 → odo_mesg_t) (gears : Fin 4 → ℚ)
    (stdId : Nat) (data : Nat → Nat) (gps_start_week : Int)
    (week : Int) (timestamp : ℚ) (s : WHEEL_SPEED_STRUCT) : WHEEL_SPEED_STRUCT :=
  if gps_start_week = -1 ∨ timestamp < 0 then s
  else
    car_process_one gears stdId data week timestamp (cfg 2)
      (car_process_one gears stdId data week timestamp (cfg 1)
        (car_process_one gears stdId data week timestamp (cfg 0) s))

/-- `car_get_wheel_speed` (car_data.c lines 157-178). Takes the current
shared state and the caller's prior output-cell contents; returns the
new state, the output cells, and the C return value (1 = sample
produced, 0 = nothing). The C literal `0.5` is exactly 1/2. -/
def car_get_wheel_speed (s : WHEEL_SPEED_STRUCT) (out : CAR_SPEED_OUT) :
    WHEEL_SPEED_STRUCT × CAR_SPEED_OUT × Nat :=
  if 3 ≤ s.update then
    let out := { out with week := s.week, timestamp := s.timestamp, fwd := s.fwd }
    let out :=
      if s.update &&& 3 = 3 then
        { out with car_speed := (s.speed_RR + s.speed_RL) * (1 / 2) }
      else if s.update &&& (1 <<< 2) ≠ 0 then
        { out with car_speed := s.speed_combined }
      else out
    ({ s with update := 0 }, out, 1)
  else (s, out, 0)

/-- The spec's gating phrase for the aggregator, verbatim: "the update
mask has at least two of the three report bits set, where bit
0 = rearRight, bit 1 = rearLeft, bit 2 = combined". -/
def atLeastTwoReportBits (m : Nat) : Prop :=
  2 ≤ (if m.testBit 0 then 1 else 0) + (if m.testBit 1 then 1 else 0) +
      (if m.testBit 2 then 1 else 0)

instance (m : Nat) : Decidable (atLeastTwoReportBits m) := by
  unfold atLeastTwoReportBits
  infer_instance

/-- Little-endian byte `j` of the 64-bit payload viewed as the natural
number `P` (payload byte 0 = least significant byte). -/
def le_payload_byte (P : Nat) (j : Nat) : Nat := (P >>> (8 * j)) % 256

/-- Little-endian encoder for the round-trip property: the payload
whose bits `startbit .. startbit+len-1` (in the 64-bit little-endian
integer formed from the 8 bytes) hold `v` and whose other bits are 0. -/
def encode_le (startbit : Nat) (v : Nat) : Nat → Nat :=
  le_payload_byte (v <<< startbit)

/-- Big-endian encoder matching the decoder's byte walk: byte
`startbit / 8` holds the least-significant chunk of `v` starting at
intra-byte bit `startbit % 8`, and successive more-significant chunks
occupy decreasing byte indices; all other bytes are 0. -/
def encode_be (startbit : Nat) (v : Nat) (i : Nat) : Nat :=
  if i ≤ startbit / 8 then le_payload_byte (v <<< (startbit % 8)) (startbit / 8 - i) else 0

/-- `mcu_time_base_t`: the shared time base (absolute time-of-week
anchor `time` and millisecond counter `msec`). The struct definition
lives in a header outside the extracted sources; per the spec both are
integer counters, modelled as mathematical integers. -/
structure mcu_time_base_t where
  time : Int
  msec : Int
  deriving DecidableEq

/-- All mutable state touched by the PPS interrupt handler. -/
structure pps_handler_state where
  g_MCU_time : mcu_time_base_t
  usCnt : Nat
  sensorCNT : Nat
  g_pps_flag : Nat
  deriving DecidableEq

/-- `ST_PPS_IRQ` (exit.c lines 59-112). Inputs: the GPIO level read
from the PPS pin (`PPSstate`), the data-acquisition semaphore handle
(`dataAcqSem`, 0 = not created), the GNSS signal-valid flag, the
freshly resolved observation time `obs_time` (`get_obs_time()`), and
the latched receive time `g_obs_rcv_time`. Returns the new state and
whether `release_sem(dataAcqSem)` was executed. LED/DRDY toggles are
external I/O with no modelled state. -/
def ST_PPS_IRQ (PPSstate dataAcqSem gnss_flag : Nat) (obs_time : Int)
    (g_obs_rcv_time : mcu_time_base_t) (s : pps_handler_state) :
    pps_handler_state × Bool :=
  let s := { s with g_pps_flag := 1 }
  if PPSstate = 0 then
    let released := decide (s.g_MCU_time.msec < 500) && decide (dataAcqSem ≠ 0)
    let s := { s with usCnt := 0 }
    let s := { s with g_MCU_time := { s.g_MCU_time with msec := 500 } }
    let s := { s with sensorCNT := 0 }
    let s :=
      if gnss_flag ≠ 0 ∧ 0 ≤ s.g_MCU_time.msec - g_obs_rcv_time.msec ∧
          s.g_MCU_time.time = g_obs_rcv_time.time then
        { s with g_MCU_time := { s.g_MCU_time with time := obs_time } }
      else s
    (s, released)
  else
    (s, false)

/-! ### Bit-arithmetic helpers -/

/-- `car_extract_loop` is the accumulator once the remaining bit count
is zero, whatever the fuel. -/
lemma car_extract_loop_zero (d : Nat → Nat) (e len fuel ib idx acc : Nat) :
    car_extract_loop d e len fuel 0 ib idx acc = acc := by
  cases fuel <;> simp [car_extract_loop]

lemma mod_pow_shiftRight (x i k : Nat) :
    (x % 2 ^ (i + k)) >>> i = (x >>> i) % 2 ^ k := by
  rw [Nat.shiftRight_eq_div_pow, Nat.shiftRight_eq_div_pow, pow_add,
    Nat.mod_mul_right_div_self]

/-- ORing a shifted value onto an accumulator that fits below the shift
is plain addition. -/
lemma lor_shiftLeft_eq_add (a b p : Nat) (h : a < 2 ^ p) :
    a ||| (b <<< p) = a + b * 2 ^ p := by
  apply Nat.eq_of_testBit_eq
  intro i
  rcases Nat.lt_or_ge i p with hi | hi
  · rw [Nat.testBit_lor, Nat.testBit_shiftLeft]
    have h1 : decide (i ≥ p) = false := by simp; omega
    have h2 : (a + b * 2 ^ p) % 2 ^ p = a := by
      rw [Nat.add_mul_mod_self_right, Nat.mod_eq_of_lt h]
    have h3 : (a + b * 2 ^ p).testBit i
        = ((a + b * 2 ^ p) % 2 ^ p).testBit i := by
      rw [Nat.testBit_mod_two_pow, decide_eq_true hi, Bool.true_and]
    rw [h3, h2, h1, Bool.false_and, Bool.or_false]
  · obtain ⟨j, rfl⟩ : ∃ j, i = p + j := ⟨i - p, by omega⟩
    rw [Nat.testBit_lor, Nat.testBit_shiftLeft]
    have ha : a.testBit (p + j) = false :=
      Nat.testBit_lt_two_pow
        (lt_of_lt_of_le h (Nat.pow_le_pow_right (by norm_num) (by omega)))
    have hd : (a + b * 2 ^ p) >>> p = b := by
      rw [Nat.shiftRight_eq_div_pow, Nat.add_mul_div_right _ _ (Nat.two_pow_pos p),
        Nat.div_eq_of_lt h, Nat.zero_add]
    have hb : (a + b * 2 ^ p).testBit (p + j) = b.testBit j := by
      rw [← Nat.testBit_shiftRight, hd]
    rw [ha, Bool.false_or, hb]
    simp [Nat.sub_eq, Nat.add_sub_cancel_left]

/-- `(2^n - 1) >>> k = 2^(n-k) - 1` for `k ≤ n` (the `0xff >> last`
mask computation). -/
lemma two_pow_sub_one_shiftRight (n k : Nat) (h : k ≤ n) :
    (2 ^ n - 1) >>> k = 2 ^ (n - k) - 1 := by
  rw [Nat.shiftRight_eq_div_pow]
  have h2 : 2 ^ k * 2 ^ (n - k) = 2 ^ n := by
    rw [← pow_add]
    congr 1
    omega
  have hk : 1 ≤ 2 ^ k := Nat.one_le_two_pow
  have hnk : 1 ≤ 2 ^ (n - k) := Nat.one_le_two_pow
  have hkn : 2 ^ k ≤ 2 ^ n := Nat.pow_le_pow_right (by norm_num) h
  have hsplit : 2 ^ n - 1 = (2 ^ k - 1) + (2 ^ (n - k) - 1) * 2 ^ k := by
    have hexp : (2 ^ (n - k) - 1) * 2 ^ k = 2 ^ n - 2 ^ k := by
      rw [Nat.sub_mul, one_mul, Nat.mul_comm, h2]
    rw [hexp]
    omega
  rw [hsplit, Nat.add_mul_div_right _ _ (Nat.two_pow_pos k),
    Nat.div_eq_of_lt (by omega), Nat.zero_add]

/-- One unfolding of the extraction loop when bits remain. -/
lemma car_extract_loop_succ (d : Nat → Nat) (e len fuel bl ib idx acc : Nat)
    (h : bl ≠ 0) :
    car_extract_loop d e len (fuel + 1) bl ib idx acc =
      car_extract_loop d e len fuel
        (bl - (8 - idx - (if 8 ≤ idx + bl then 0 else 8 - (idx + bl))))
        (if e = 0 then ib + 1 else ib - 1) 0
        (acc ||| int32_chunk_bits64 ((d ib >>> idx) &&&
          (0xff >>> (if 8 ≤ idx + bl then 0 else 8 - (idx + bl)))) (len - bl)) := by
  conv_lhs => simp only [car_extract_loop]
  rw [if_neg h]

/-- While the 32-bit product stays below `2^31` the deposit is the
ideal shift: no truncation and no sign extension happen. -/
lemma int32_chunk_bits64_eq_of_lt (c p : Nat) (h : c <<< p < 2 ^ 31) :
    int32_chunk_bits64 c p = c <<< p := by
  unfold int32_chunk_bits64
  by_cases h32 : 32 ≤ p
  · have hc : c = 0 := by
      by_contra hc
      have hle : (2 : Nat) ^ 31 ≤ 2 ^ p := Nat.pow_le_pow_right (by norm_num) (by omega)
      have hcp : 2 ^ p ≤ c * 2 ^ p := Nat.le_mul_of_pos_left _ (by omega)
      rw [Nat.shiftLeft_eq] at h
      omega
    subst hc
    simp [h32]
  · rw [if_neg h32]
    have hmod : (c <<< p) % 2 ^ 32 = c <<< p :=
      Nat.mod_eq_of_lt (lt_trans h (by norm_num))
    simp only [hmod, if_pos h]

/-- Reading a pattern below `2^63` as `int64_t` is the identity. -/
lemma int64_as_int_of_lt (w : Nat) (h : w < 2 ^ 63) : int64_as_int w = (w : Int) := by
  unfold int64_as_int
  rw [if_pos h]

/-- Wrapping an in-range integer into `int64_t` is the identity. -/
lemma int64_wrap_eq (x : Int) (h1 : -(2 ^ 63) ≤ x) (h2 : x < 2 ^ 63) :
    int64_wrap x = x := by
  have hp : (2 : Int) ^ 64 = 2 ^ 63 * 2 := by ring
  unfold int64_wrap
  rw [Int.emod_eq_of_lt (by omega) (by omega)]
  omega

/-- The byte the loop reads, shifted to the current intra-byte offset,
is the payload shifted to the current absolute bit position, reduced
modulo the bits left in the byte. -/
lemma le_payload_byte_shiftRight (P ib idx : Nat) (h : idx < 8) :
    le_payload_byte P ib >>> idx = (P >>> (8 * ib + idx)) % 2 ^ (8 - idx) := by
  unfold le_payload_byte
  have h256 : (256 : Nat) = 2 ^ (idx + (8 - idx)) := by
    have h8 : idx + (8 - idx) = 8 := by omega
    rw [h8]
    norm_num
  rw [h256, mod_pow_shiftRight, ← Nat.shiftRight_add]

/-- Main invariant of the extraction loop, little-endian byte walk:
starting at absolute bit position `8*ib + idx` with `bl` bits still to
read over a payload whose bytes agree with those of the natural number
`P` at every byte the loop can still read, and with `P` holding no set
bits at or above position `8*ib + idx + bl`, the loop deposits the
remaining field bits onto the accumulator at position `len - bl`. -/
lemma car_extract_loop_le_inv (len P : Nat) (d : Nat → Nat) :
    ∀ fuel bl ib idx acc,
      idx < 8 → bl ≤ fuel → bl ≤ len →
      P >>> (8 * ib + idx) < 2 ^ bl →
      acc < 2 ^ (len - bl) →
      (∀ j, 8 * j < 8 * ib + idx + bl → d j = le_payload_byte P j) →
      (P >>> (8 * ib + idx)) * 2 ^ (len - bl) < 2 ^ 31 →
      car_extract_loop d 0 len fuel bl ib idx acc =
        acc + (P >>> (8 * ib + idx)) * 2 ^ (len - bl) := by
  intro fuel
  induction fuel with
  | zero =>
    intro bl ib idx acc h1 h2 h3 h4 h5 h6 h7
    have hbl : bl = 0 := by omega
    subst hbl
    have hP : P >>> (8 * ib + idx) = 0 := by simpa using h4
    simp [car_extract_loop, hP]
  | succ fuel ih =>
    intro bl ib idx acc h1 h2 h3 h4 h5 h6 h7
    by_cases hbl : bl = 0
    · subst hbl
      have hP : P >>> (8 * ib + idx) = 0 := by simpa using h4
      simp [car_extract_loop, hP]
    · rw [car_extract_loop_succ d 0 len fuel bl ib idx acc hbl, if_pos rfl]
      have hdib : d ib = le_payload_byte P ib := h6 ib (by omega)
      by_cases hcase : 8 ≤ idx + bl
      · -- the field continues past this byte: take the top `8 - idx`
        -- bits of the byte
        rw [if_pos hcase]
        have ht1 : 8 - idx - 0 = 8 - idx := by omega
        have hmask : (0xff : Nat) >>> 0 = 2 ^ 8 - 1 := by norm_num
        have hchunk : (d ib >>> idx) &&& (0xff >>> 0)
            = (P >>> (8 * ib + idx)) % 2 ^ (8 - idx) := by
          rw [hdib, hmask, Nat.and_pow_two_sub_one_eq_mod,
            le_payload_byte_shiftRight P ib idx h1,
            Nat.mod_eq_of_lt (lt_of_lt_of_le (Nat.mod_lt _ (Nat.two_pow_pos _))
              (Nat.pow_le_pow_right (by norm_num) (by omega)))]
        rw [ht1, hchunk]
        set v := P >>> (8 * ib + idx) with hv
        set t := 8 - idx with htdef
        have hchunklt : v % 2 ^ t < 2 ^ t := Nat.mod_lt _ (Nat.two_pow_pos t)
        have hdep : int32_chunk_bits64 (v % 2 ^ t) (len - bl)
            = (v % 2 ^ t) <<< (len - bl) := by
          apply int32_chunk_bits64_eq_of_lt
          rw [Nat.shiftLeft_eq]
          calc (v % 2 ^ t) * 2 ^ (len - bl)
              ≤ v * 2 ^ (len - bl) := Nat.mul_le_mul_right _ (Nat.mod_le _ _)
            _ < 2 ^ 31 := h7
        have hacc : acc ||| ((v % 2 ^ t) <<< (len - bl))
            = acc + (v % 2 ^ t) * 2 ^ (len - bl) :=
          lor_shiftLeft_eq_add _ _ _ h5
        rw [hdep, hacc]
        have hexp2 : len - (bl - t) = (len - bl) + t := by omega
        have hpos : 8 * (ib + 1) + 0 = (8 * ib + idx) + t := by omega
        have hvt : P >>> (8 * (ib + 1) + 0) = v / 2 ^ t := by
          rw [hpos, Nat.shiftRight_add, hv, Nat.shiftRight_eq_div_pow]
        have hrec := ih (bl - t) (ib + 1) 0 (acc + (v % 2 ^ t) * 2 ^ (len - bl))
          (by omega) (by omega) (by omega)
          (by
            rw [hvt]
            apply Nat.div_lt_of_lt_mul
            calc v < 2 ^ bl := h4
              _ = 2 ^ t * 2 ^ (bl - t) := by rw [← pow_add]; congr 1; omega)
          (by
            rw [hexp2, pow_add]
            calc acc + (v % 2 ^ t) * 2 ^ (len - bl)
                < 2 ^ (len - bl) + (v % 2 ^ t) * 2 ^ (len - bl) := by omega
              _ = ((v % 2 ^ t) + 1) * 2 ^ (len - bl) := by ring
              _ ≤ 2 ^ t * 2 ^ (len - bl) :=
                  Nat.mul_le_mul_right _ (by omega)
              _ = 2 ^ (len - bl) * 2 ^ t := by ring)
          (by
            intro j hj
            exact h6 j (by omega))
          (by
            rw [hvt, hexp2, pow_add]
            calc v / 2 ^ t * (2 ^ (len - bl) * 2 ^ t)
                = v / 2 ^ t * 2 ^ t * 2 ^ (len - bl) := by ring
              _ ≤ v * 2 ^ (len - bl) :=
                  Nat.mul_le_mul_right _ (Nat.div_mul_le_self v (2 ^ t))
              _ < 2 ^ 31 := h7)
        rw [hrec, hvt, hexp2, pow_add]
        conv_rhs => rw [← Nat.mod_add_div v (2 ^ t)]
        ring
      · -- the field ends inside this byte: take exactly `bl` bits
        rw [if_neg hcase]
        have hlast : 8 - (idx + bl) ≤ 8 := by omega
        have hmask : (0xff : Nat) >>> (8 - (idx + bl)) = 2 ^ (idx + bl) - 1 := by
          have h255 : (0xff : Nat) = 2 ^ 8 - 1 := by norm_num
          rw [h255, two_pow_sub_one_shiftRight 8 _ hlast]
          congr 1
          congr 1
          omega
        have hchunk : (d ib >>> idx) &&& (0xff >>> (8 - (idx + bl)))
            = P >>> (8 * ib + idx) := by
          rw [hdib, hmask, Nat.and_pow_two_sub_one_eq_mod,
            le_payload_byte_shiftRight P ib idx h1]
          rw [Nat.mod_eq_of_lt (lt_of_lt_of_le h4
            (Nat.pow_le_pow_right (by norm_num) (by omega)))]
          exact Nat.mod_eq_of_lt (lt_of_lt_of_le h4
            (Nat.pow_le_pow_right (by norm_num) (by omega)))
        have ht0 : bl - (8 - idx - (8 - (idx + bl))) = 0 := by omega
        have hdep : int32_chunk_bits64 (P >>> (8 * ib + idx)) (len - bl)
            = (P >>> (8 * ib + idx)) <<< (len - bl) := by
          apply int32_chunk_bits64_eq_of_lt
          rw [Nat.shiftLeft_eq]
          exact h7
        rw [hchunk, hdep, ht0, car_extract_loop_zero,
          lor_shiftLeft_eq_add _ _ _ h5]

/-- A little-endian loop run is invariant under re-basing the byte
index to zero while shifting the data accordingly. -/
lemma car_extract_loop_shift (len : Nat) :
    ∀ fuel (d : Nat → Nat) bl ib idx acc,
      car_extract_loop d 0 len fuel bl ib idx acc =
      car_extract_loop (fun j => d (ib + j)) 0 len fuel bl 0 idx acc := by
  intro fuel
  induction fuel with
  | zero => intro d bl ib idx acc; rfl
  | succ fuel ih =>
    intro d bl ib idx acc
    by_cases hbl : bl = 0
    · subst hbl
      simp [car_extract_loop]
    · rw [car_extract_loop_succ d 0 len fuel bl ib idx acc hbl,
        car_extract_loop_succ _ 0 len fuel bl 0 idx acc hbl,
        if_pos rfl, if_pos rfl]
      rw [ih d _ (ib + 1) 0 _, ih (fun j => d (ib + j)) _ (0 + 1) 0 _]
      simp only [Nat.add_zero]
      have hfun : (fun j => d (ib + 1 + j)) = (fun j => d (ib + (0 + 1 + j))) := by
        funext j
        congr 1
        omega
      rw [hfun]

/-- A big-endian loop run equals a little-endian run over the
byte-reversed data (reversal centred at the starting byte index). -/
lemma car_extract_loop_be (len : Nat) :
    ∀ fuel (d : Nat → Nat) bl ib idx acc,
      car_extract_loop d 1 len fuel bl ib idx acc =
      car_extract_loop (fun j => d (ib - j)) 0 len fuel bl 0 idx acc := by
  intro fuel
  induction fuel with
  | zero => intro d bl ib idx acc; rfl
  | succ fuel ih =>
    intro d bl ib idx acc
    by_cases hbl : bl = 0
    · subst hbl
      simp [car_extract_loop]
    · rw [car_extract_loop_succ d 1 len fuel bl ib idx acc hbl,
        car_extract_loop_succ _ 0 len fuel bl 0 idx acc hbl,
        if_neg (by norm_num : ¬(1 : Nat) = 0), if_pos rfl]
      rw [ih d _ (ib - 1) 0 _,
        car_extract_loop_shift len fuel (fun j => d (ib - j)) _ (0 + 1) 0 _]
      simp only [Nat.sub_zero]
      have hfun : (fun j => d (ib - 1 - j)) = (fun j => d (ib - (0 + 1 + j))) := by
        funext j
        congr 1
        omega
      rw [hfun]

/-- Little-endian round trip: decoding an encoded field below `2^31`
recovers it (the deposits then never reach the 32-bit sign bit). -/
lemma car_extract_encode_le (sb len v : Nat) (_hlen1 : 0 < len)
    (_hfit : sb + len ≤ 64) (hv : v < 2 ^ len) (hv31 : v < 2 ^ 31) :
    car_extract (encode_le sb v) 0 sb len = v := by
  unfold car_extract encode_le
  have hidx : sb % 8 < 8 := Nat.mod_lt _ (by norm_num)
  have hpos : 8 * (sb / 8) + sb % 8 = sb := by omega
  have hvs : v <<< sb >>> sb = v := by
    rw [Nat.shiftLeft_eq, Nat.shiftRight_eq_div_pow,
      Nat.mul_div_cancel _ (Nat.two_pow_pos sb)]
  rw [car_extract_loop_le_inv len (v <<< sb) (le_payload_byte (v <<< sb))
    len len (sb / 8) (sb % 8) 0 hidx le_rfl le_rfl
    (by rw [hpos, hvs]; exact hv)
    (by simp)
    (fun _ _ => rfl)
    (by rw [hpos, hvs]; simpa using hv31)]
  rw [hpos, hvs]
  simp

/-- Big-endian round trip: decoding an encoded field below `2^31`
recovers it. -/
lemma car_extract_encode_be (sb len v : Nat) (hlen1 : 0 < len)
    (hfit : len ≤ (sb / 8 + 1) * 8 - sb % 8) (hv : v < 2 ^ len)
    (hv31 : v < 2 ^ 31) :
    car_extract (encode_be sb v) 1 sb len = v := by
  unfold car_extract
  rw [car_extract_loop_be len len (encode_be sb v) len (sb / 8) (sb % 8) 0]
  have hidx : sb % 8 < 8 := Nat.mod_lt _ (by norm_num)
  have hvs : v <<< (sb % 8) >>> (sb % 8) = v := by
    rw [Nat.shiftLeft_eq, Nat.shiftRight_eq_div_pow,
      Nat.mul_div_cancel _ (Nat.two_pow_pos _)]
  have hmod8 : sb % 8 < 8 := hidx
  rw [car_extract_loop_le_inv len (v <<< (sb % 8)) _
    len len 0 (sb % 8) 0 hidx le_rfl le_rfl
    (by rw [show 8 * 0 + sb % 8 = sb % 8 from by omega, hvs]; exact hv)
    (by simp)
    (by
      intro j hj
      have hj8 : j ≤ sb / 8 := by omega
      show encode_be sb v (sb / 8 - j) = _
      unfold encode_be
      rw [if_pos (Nat.sub_le _ _), show sb / 8 - (sb / 8 - j) = j from by omega])
    (by rw [show 8 * 0 + sb % 8 = sb % 8 from by omega, hvs]; simpa using hv31)]
  rw [show 8 * 0 + sb % 8 = sb % 8 from by omega, hvs]
  simp

/-- Testing a single bit with the source's `value & (1 << k)` idiom. -/
lemma and_one_shiftLeft_ne_zero (x k : Nat) :
    x &&& (1 <<< k) ≠ 0 ↔ x.testBit k = true := by
  rw [Nat.shiftLeft_eq, one_mul, Nat.and_two_pow]
  cases h : x.testBit k <;> simp [h, (Nat.two_pow_pos k).ne']

/-- Same bit test with the mask written as a power of two. -/
lemma and_two_pow_ne_zero (x k : Nat) :
    x &&& 2 ^ k ≠ 0 ↔ x.testBit k = true := by
  rw [Nat.and_two_pow]
  cases h : x.testBit k <;> simp [h, (Nat.two_pow_pos k).ne']

/-- A chunk bounded by its byte (≤ 255) and by the bits remaining in
the field never reaches the 32-bit sign bit when the field is at most
31 bits wide: a non-zero intra-byte offset happens only on the first
iteration, where the deposit position is 0. -/
lemma chunk_deposit_lt (c idx bl len : Nat) (hlen : len ≤ 31) (hbl : bl ≤ len)
    (h255 : c ≤ 255) (h2 : c ≤ 2 ^ (idx + bl) - 1)
    (hfirst : idx ≠ 0 → bl = len) :
    c <<< (len - bl) < 2 ^ 31 := by
  by_cases hidx : idx = 0
  · subst hidx
    simp only [Nat.zero_add] at h2
    have hpos := Nat.two_pow_pos bl
    have hclt : c < 2 ^ bl := by omega
    calc c <<< (len - bl) = c * 2 ^ (len - bl) := Nat.shiftLeft_eq _ _
      _ < 2 ^ bl * 2 ^ (len - bl) := Nat.mul_lt_mul_of_pos_right hclt (Nat.two_pow_pos _)
      _ = 2 ^ (bl + (len - bl)) := (pow_add 2 bl (len - bl)).symm
      _ ≤ 2 ^ 31 := Nat.pow_le_pow_right (by norm_num) (by omega)
  · have hp : len - bl = 0 := by
      have := hfirst hidx
      omega
    rw [hp]
    calc c <<< 0 = c := by simp
      _ < 2 ^ 31 := lt_of_le_of_lt h255 (by norm_num)

/-- For field widths up to 31 bits the extraction accumulator stays
below `2^31` whatever the payload bytes: no deposit ever engages the
32-bit truncation or sign extension. -/
lemma car_extract_loop_lt_two_pow (d : Nat → Nat) (e len : Nat) (hlen : len ≤ 31) :
    ∀ fuel bl ib idx acc,
      idx < 8 → bl ≤ len → (idx ≠ 0 → bl = len) → acc < 2 ^ 31 →
      car_extract_loop d e len fuel bl ib idx acc < 2 ^ 31 := by
  intro fuel
  induction fuel with
  | zero =>
    intro bl ib idx acc h1 h2 h3 h5
    simpa [car_extract_loop] using h5
  | succ fuel ih =>
    intro bl ib idx acc h1 h2 h3 h5
    by_cases hbl : bl = 0
    · subst hbl
      simpa [car_extract_loop] using h5
    · rw [car_extract_loop_succ d e len fuel bl ib idx acc hbl]
      have hmle : (0xff : Nat) >>> (if 8 ≤ idx + bl then 0 else 8 - (idx + bl))
          ≤ 2 ^ (idx + bl) - 1 := by
        by_cases hcase : 8 ≤ idx + bl
        · rw [if_pos hcase]
          have hpow : (2 : Nat) ^ 8 ≤ 2 ^ (idx + bl) :=
            Nat.pow_le_pow_right (by norm_num) hcase
          simp only [Nat.shiftRight_zero]
          omega
        · rw [if_neg hcase,
            show (0xff : Nat) = 2 ^ 8 - 1 from by norm_num,
            two_pow_sub_one_shiftRight 8 _ (by omega),
            show 8 - (8 - (idx + bl)) = idx + bl from by omega]
      have hm255 : (0xff : Nat) >>> (if 8 ≤ idx + bl then 0 else 8 - (idx + bl))
          ≤ 255 := by
        rw [Nat.shiftRight_eq_div_pow]
        exact le_trans (Nat.div_le_self _ _) (by norm_num)
      have hshift : ((d ib >>> idx) &&&
          (0xff >>> (if 8 ≤ idx + bl then 0 else 8 - (idx + bl)))) <<< (len - bl)
          < 2 ^ 31 :=
        chunk_deposit_lt _ idx bl len hlen h2
          (le_trans Nat.and_le_right hm255)
          (le_trans Nat.and_le_right hmle) h3
      have hdeplt : int32_chunk_bits64 ((d ib >>> idx) &&&
          (0xff >>> (if 8 ≤ idx + bl then 0 else 8 - (idx + bl)))) (len - bl)
          < 2 ^ 31 := by
        rw [int32_chunk_bits64_eq_of_lt _ _ hshift]
        exact hshift
      exact ih _ _ _ _ (by norm_num) (by omega) (fun hc => absurd rfl hc)
        (Nat.or_lt_two_pow h5 hdeplt)

/-- Top-level form of the width bound. -/
lemma car_extract_lt_two_pow (data : Nat → Nat) (e sb len : Nat) (hlen : len ≤ 31) :
    car_extract data e sb len < 2 ^ 31 := by
  unfold car_extract
  exact car_extract_loop_lt_two_pow data e len hlen len len (sb / 8) (sb % 8) 0
    (Nat.mod_lt _ (by norm_num)) le_rfl (fun _ => rfl) (by norm_num)

/-- The aggregator's `(update & 3) == 3` test reads both low mask bits. -/
lemma and_three_eq_three (m : Nat) :
    m &&& 3 = 3 ↔ (m.testBit 0 = true ∧ m.testBit 1 = true) := by
  have h4 : m &&& 3 = m % 4 := by
    have := Nat.and_pow_two_sub_one_eq_mod m 2
    norm_num at this
    exact this
  have h0 : m.testBit 0 = decide (m % 2 = 1) := Nat.testBit_zero m
  have h1 : m.testBit 1 = decide (m / 2 % 2 = 1) := by
    rw [Nat.testBit_add_one, Nat.testBit_zero]
  rw [h4, h0, h1]
  simp only [decide_eq_true_eq]
  omega

/-! ### Concrete fixtures used by counterexamples and witnesses -/

/-- Shared wheel-speed state whose update mask has only the combined
bit (bit 2, numeric value 4) set. Reachable: one frame decoded through
a `source = 2` descriptor starting from the reset state. -/
def wheelStateCombinedOnly : WHEEL_SPEED_STRUCT :=
  { speed_RR := 0, speed_RL := 0, speed_combined := 9, fwd := 1,
    update := 4, week := 2100, timestamp := 100 }

/-- Wheel-speed state with both rear-wheel bits set (mask 3). -/
def wheelStateBothRears : WHEEL_SPEED_STRUCT :=
  { speed_RR := 10, speed_RL := 20, speed_combined := 0, fwd := 1,
    update := 3, week := 2100, timestamp := 250 }

/-- Empty output cells. -/
def outZero : CAR_SPEED_OUT := { car_speed := 0, fwd := 0, week := 0, timestamp := 0 }

/-- A signed little-endian full-byte descriptor. -/
def mesgSigned : odo_mesg_t :=
  { usage := 0x55, mesgID := 0x100, startbit := 0, length := 8, endian := 0,
    sign := 1, unit := 2, source := 0, factor := 1, offset := 0 }

/-- A gear-selector descriptor (source 3). -/
def mesgGear : odo_mesg_t :=
  { usage := 0x55, mesgID := 0x200, startbit := 8, length := 4, endian := 0,
    sign := 0, unit := 2, source := 3, factor := 1, offset := 0 }

/-- All payload bytes `0xFF`. -/
def dataFF : Nat → Nat := fun _ => 0xFF

/-- Gear reference table 1,2,3,4. -/
def gearsDefault : Fin 4 → ℚ := fun i => (i : ℚ) + 1

/-- Configuration table repeating the signed descriptor. -/
def cfgDefault : Fin 3 → odo_mesg_t := fun _ => mesgSigned

/-! ### Claim theorems -/

/-- C1, counterexample: with only the combined-source bit set
(`update = 4`), `car_get_wheel_speed` does return a sample even though
fewer than two of the three report bits are set — refuting the claimed
equivalence between "at least two of the three report bits" and the
code's numeric gate `update >= 3`. -/
theorem claim_C1_counterexample :
    (car_get_wheel_speed wheelStateCombinedOnly outZero).2.2 = 1 ∧
    ¬ atLeastTwoReportBits wheelStateCombinedOnly.update := by
  constructor
  · rfl
  · decide

/-- C1, amended: the readout returns a sample exactly when the numeric
test `update >= 3` passes. Having at least two of the three report
bits set implies the gate passes, but the converse fails (mask 4):
the numeric test is implied by, not equivalent to, the two-bit
reading. -/
theorem claim_C1_gate_is_numeric_ge_three (s : WHEEL_SPEED_STRUCT) (out : CAR_SPEED_OUT) :
    ((car_get_wheel_speed s out).2.2 = 1 ↔ 3 ≤ s.update) ∧
    (atLeastTwoReportBits s.update → 3 ≤ s.update) := by
  constructor
  · unfold car_get_wheel_speed
    by_cases h : 3 ≤ s.update
    · simp [h]
    · simp [h]
  · intro h
    unfold atLeastTwoReportBits at h
    have h0 : s.update.testBit 0 = decide (s.update % 2 = 1) := Nat.testBit_zero _
    have h1 : s.update.testBit 1 = decide (s.update / 2 % 2 = 1) := by
      rw [Nat.testBit_add_one, Nat.testBit_zero]
    have h2 : s.update.testBit 2 = decide (s.update / 2 / 2 % 2 = 1) := by
      rw [Nat.testBit_add_one, Nat.testBit_add_one, Nat.testBit_zero]
    rw [h0, h1, h2] at h
    by_cases b0 : s.update % 2 = 1 <;> by_cases b1 : s.update / 2 % 2 = 1 <;>
      by_cases b2 : s.update / 2 / 2 % 2 = 1 <;>
      simp [b0, b1, b2] at h ⊢ <;> omega

/-- C1 witness: at mask 3 the gate passes and a sample is returned. -/
theorem claim_C1_witness :
    (car_get_wheel_speed wheelStateBothRears outZero).2.2 = 1 ∧
    (atLeastTwoReportBits wheelStateBothRears.update →
      3 ≤ wheelStateBothRears.update) :=
  ⟨(claim_C1_gate_is_numeric_ge_three wheelStateBothRears outZero).1.mpr (by decide),
   (claim_C1_gate_is_numeric_ge_three wheelStateBothRears outZero).2⟩

/-- C2: whenever the readout returns a sample, the fused speed is the
rear-wheel average when both rear bits are set, the combined speed when
they are not both set but the combined bit is, and the sample carries
the stored direction flag, week and timestamp. -/
theorem claim_C2_fusion_priority (s : WHEEL_SPEED_STRUCT) (out : CAR_SPEED_OUT)
    (h : (car_get_wheel_speed s out).2.2 = 1) :
    (s.update.testBit 0 = true ∧ s.update.testBit 1 = true →
      (car_get_wheel_speed s out).2.1.car_speed = (s.speed_RR + s.speed_RL) / 2) ∧
    (¬(s.update.testBit 0 = true ∧ s.update.testBit 1 = true) →
      s.update.testBit 2 = true →
      (car_get_wheel_speed s out).2.1.car_speed = s.speed_combined) ∧
    (car_get_wheel_speed s out).2.1.fwd = s.fwd ∧
    (car_get_wheel_speed s out).2.1.week = s.week ∧
    (car_get_wheel_speed s out).2.1.timestamp = s.timestamp := by
  have hup : 3 ≤ s.update := by
    by_contra hc
    unfold car_get_wheel_speed at h
    rw [if_neg hc] at h
    simp at h
  simp only [car_get_wheel_speed, if_pos hup]
  by_cases hand3 : s.update &&& 3 = 3
  · simp only [if_pos hand3]
    refine ⟨fun _ => ?_, fun hnb _ => absurd ((and_three_eq_three _).mp hand3) hnb,
      by trivial, by trivial, by trivial⟩
    show (s.speed_RR + s.speed_RL) * (1 / 2) = (s.speed_RR + s.speed_RL) / 2
    ring
  · simp only [if_neg hand3]
    by_cases hbit2 : s.update &&& (1 <<< 2) ≠ 0
    · simp only [if_pos hbit2]
      exact ⟨fun hb => absurd ((and_three_eq_three _).mpr hb) hand3,
        fun _ _ => by trivial, by trivial, by trivial, by trivial⟩
    · simp only [if_neg hbit2]
      exact ⟨fun hb => absurd ((and_three_eq_three _).mpr hb) hand3,
        fun _ hb2 => absurd ((and_one_shiftLeft_ne_zero _ _).mpr hb2) hbit2,
        by trivial, by trivial, by trivial⟩

/-- C2 witness: mask 3, speeds 10 and 20, fused sample speed 15. -/
theorem claim_C2_witness :
    (car_get_wheel_speed wheelStateBothRears outZero).2.2 = 1 ∧
    (car_get_wheel_speed wheelStateBothRears outZero).2.1.car_speed
      = (wheelStateBothRears.speed_RR + wheelStateBothRears.speed_RL) / 2 ∧
    (car_get_wheel_speed wheelStateBothRears outZero).2.1.timestamp
      = wheelStateBothRears.timestamp :=
  ⟨by rfl,
   (claim_C2_fusion_priority wheelStateBothRears outZero (by rfl)).1 ⟨by decide, by decide⟩,
   (claim_C2_fusion_priority wheelStateBothRears outZero (by rfl)).2.2.2.2⟩

/-- C3, counterexample: the little-endian descriptor `startBit = 0`,
`bitLength = 32` is valid by every check of the source, yet decoding
the encoding of `2^31` does not recover it — the deposit
`0x80 << 24` is computed in 32-bit `int`, becomes negative, and is
sign-extended into the upper half of the `int64_t` accumulator
(yielding the pattern `0xFFFFFFFF80000000`). -/
theorem claim_C3_counterexample :
    (0 : Nat) < 64 ∧ (0 : Nat) < 32 ∧ (32 : Nat) ≤ 64 ∧ 0 + 32 ≤ 64 ∧
    (2 : Nat) ^ 31 < 2 ^ 32 ∧
    car_extract (encode_le 0 (2 ^ 31)) 0 0 32 ≠ 2 ^ 31 := by
  refine ⟨by decide, by decide, by decide, by decide, by decide, ?_⟩
  decide

/-- C3, amended: for every valid descriptor — `startBit` in 0..63,
`bitLength` in 1..64 passing the per-endianness fit check of the
source — decode after encode is the identity on field values **below
`2^31`**, for both byte orders; in particular on all values of every
field of at most 31 bits. Wider values are corrupted by the 32-bit
`int` intermediate of the deposit shift. -/
theorem claim_C3_bit_extraction_roundtrip (sb len v : Nat)
    ( _h_sb : sb < 64) (hlen1 : 0 < len) ( _h_len : len ≤ 64) (hv : v < 2 ^ len)
    (hv31 : v < 2 ^ 31) :
    (sb + len ≤ 64 → car_extract (encode_le sb v) 0 sb len = v) ∧
    (¬((sb / 8 + 1) * 8 - sb % 8 < len) →
      car_extract (encode_be sb v) 1 sb len = v) :=
  ⟨fun hfit => car_extract_encode_le sb len v hlen1 hfit hv hv31,
   fun hfit => car_extract_encode_be sb len v hlen1 (by omega) hv hv31⟩

/-- C3 witness: field of width 12 at bit 19 (straddling a byte
boundary), value 2741, both byte orders. -/
theorem claim_C3_witness :
    (19 : Nat) < 64 ∧ (0 : Nat) < 12 ∧ (12 : Nat) ≤ 64 ∧ (2741 : Nat) < 2 ^ 12 ∧
    (2741 : Nat) < 2 ^ 31 ∧
    19 + 12 ≤ 64 ∧ ¬((19 / 8 + 1) * 8 - 19 % 8 < 12) ∧
    car_extract (encode_le 19 2741) 0 19 12 = 2741 ∧
    car_extract (encode_be 19 2741) 1 19 12 = 2741 :=
  ⟨by decide, by decide, by decide, by decide, by decide, by decide, by decide,
   (claim_C3_bit_extraction_roundtrip 19 12 2741 (by decide) (by decide)
     (by decide) (by decide) (by decide)).1 (by decide),
   (claim_C3_bit_extraction_roundtrip 19 12 2741 (by decide) (by decide)
     (by decide) (by decide) (by decide)).2 (by decide)⟩

/-- A valid signed little-endian 32-bit descriptor. -/
def mesg32 : odo_mesg_t :=
  { usage := 0x55, mesgID := 0x100, startbit := 0, length := 32, endian := 0,
    sign := 1, unit := 2, source := 0, factor := 1, offset := 0 }

/-- Payload whose 32-bit little-endian field has exactly bit 31 set. -/
def dataBit31 : Nat → Nat := fun j => if j = 3 then 0x80 else 0

/-- C4, counterexample: for the valid signed 32-bit descriptor and a
payload whose extracted value has bit 31 set, the value passed on to
scaling is **not** `-(raw - 2^31)`: the mask `1 << 31` is `INT_MIN` in
32-bit `int`, sign-extended to `0xFFFFFFFF80000000` as `int64_t`, so
the code computes 0 here instead of the claimed formula. -/
theorem claim_C4_counterexample :
    mesg32.sign = 1 ∧
    (car_extract dataBit31 mesg32.endian mesg32.startbit
      mesg32.length).testBit (mesg32.length - 1) = true ∧
    car_decoded_value mesg32 dataBit31 ≠
      -((car_extract dataBit31 mesg32.endian mesg32.startbit
          mesg32.length : Int) - 2 ^ (mesg32.length - 1)) := by
  refine ⟨rfl, by decide, ?_⟩
  decide

/-- C4, amended: for descriptors of width 1..31 — where the 32-bit
`int` mask `1 << (bitLength-1)` is the plain power of two and the
extraction result stays below `2^31` — the value the decoder passes on
to scaling is the raw extraction result unless the descriptor is
signed and the raw value's top bit (bit `bitLength - 1`) is set, in
which case it is `-(raw - 2^(bitLength-1))`, the source's exact
(non-two's-complement) formula. At width 32 the mask is `INT_MIN`
sign-extended and at widths 33..64 it is 0, so the formula no longer
holds there. -/
theorem claim_C4_sign_extension (m : odo_mesg_t) (data : Nat → Nat)
    (hl1 : 0 < m.length) (hl31 : m.length ≤ 31) :
    (m.sign = 1 →
      (car_extract data m.endian m.startbit m.length).testBit (m.length - 1) = true →
      car_decoded_value m data =
        -((car_extract data m.endian m.startbit m.length : Int) - 2 ^ (m.length - 1))) ∧
    (m.sign = 1 →
      (car_extract data m.endian m.startbit m.length).testBit (m.length - 1) = false →
      car_decoded_value m data = (car_extract data m.endian m.startbit m.length : Int)) ∧
    (m.sign = 0 →
      car_decoded_value m data = (car_extract data m.endian m.startbit m.length : Int)) := by
  have hraw : car_extract data m.endian m.startbit m.length < 2 ^ 31 :=
    car_extract_lt_two_pow data m.endian m.startbit m.length hl31
  have hmask : int32_one_shift (m.length - 1) = 2 ^ (m.length - 1) := by
    unfold int32_one_shift
    rw [if_pos (by omega)]
  have hrawI : int64_as_int (car_extract data m.endian m.startbit m.length)
      = (car_extract data m.endian m.startbit m.length : Int) :=
    int64_as_int_of_lt _ (lt_trans hraw (by norm_num))
  have hmaskI : int64_as_int (2 ^ (m.length - 1))
      = ((2 ^ (m.length - 1) : Nat) : Int) :=
    int64_as_int_of_lt _
      (lt_of_le_of_lt (Nat.pow_le_pow_right (by norm_num) (by omega))
        (by norm_num : (2 : Nat) ^ 30 < 2 ^ 63))
  unfold car_decoded_value car_sign_value
  rw [hmask]
  refine ⟨fun hs ht => ?_, fun hs ht => ?_, fun hs => ?_⟩
  · rw [if_pos hs, if_pos ((and_two_pow_ne_zero _ _).mpr ht), hrawI, hmaskI]
    have hrawII : (car_extract data m.endian m.startbit m.length : Int) < 2 ^ 31 := by
      exact_mod_cast hraw
    have hrawpos : (0 : Int) ≤ (car_extract data m.endian m.startbit m.length : Int) :=
      Int.ofNat_nonneg _
    have hmII : ((2 ^ (m.length - 1) : Nat) : Int) ≤ 2 ^ 30 := by
      have hn : (2 : Nat) ^ (m.length - 1) ≤ 2 ^ 30 :=
        Nat.pow_le_pow_right (by norm_num) (by omega)
      exact_mod_cast hn
    have hmpos : (0 : Int) ≤ ((2 ^ (m.length - 1) : Nat) : Int) := Int.ofNat_nonneg _
    have e63 : (2 : Int) ^ 63 = 9223372036854775808 := by norm_num
    have e31 : (2 : Int) ^ 31 = 2147483648 := by norm_num
    have e30 : (2 : Int) ^ 30 = 1073741824 := by norm_num
    rw [int64_wrap_eq _ (by omega) (by omega)]
    push_cast
    ring
  · rw [if_pos hs, if_neg, hrawI]
    intro hc
    rw [(and_two_pow_ne_zero _ _).mp hc] at ht
    exact Bool.true_eq_false.mp ht
  · rw [if_neg (by omega : ¬ m.sign = 1), hrawI]

/-- C4 witness: signed full-byte field, payload `0xFF`: raw 255, top
bit set, decoded value `-(255 - 128) = -127`. -/
theorem claim_C4_witness :
    mesgSigned.sign = 1 ∧
    (car_extract dataFF mesgSigned.endian mesgSigned.startbit
      mesgSigned.length).testBit (mesgSigned.length - 1) = true ∧
    car_decoded_value mesgSigned dataFF =
      -((car_extract dataFF mesgSigned.endian mesgSigned.startbit
          mesgSigned.length : Int) - 2 ^ (mesgSigned.length - 1)) :=
  ⟨rfl, by decide,
   (claim_C4_sign_extension mesgSigned dataFF (by decide) (by decide)).1
     rfl (by decide)⟩

/-- C5: when the time resolver reports week `-1` or a negative
time-of-week, `car_can_data_process` leaves the wheel-speed state
bit-for-bit unchanged, whatever the frame. -/
theorem claim_C5_time_gating (cfg : Fin 3 → odo_mesg_t) (gears : Fin 4 → ℚ)
    (stdId : Nat) (data : Nat → Nat) (gps_start_week week : Int) (timestamp : ℚ)
    (s : WHEEL_SPEED_STRUCT)
    (h : gps_start_week = -1 ∨ timestamp < 0) :
    car_can_data_process cfg gears stdId data gps_start_week week timestamp s = s := by
  unfold car_can_data_process
  rw [if_pos h]

/-- C5 witness: a frame arriving while the resolver week is `-1` leaves
a concrete populated state unchanged. -/
theorem claim_C5_witness :
    ((-1 : Int) = -1 ∨ (3 : ℚ) < 0) ∧
    car_can_data_process cfgDefault gearsDefault 0x100 dataFF (-1) 2100 3
      wheelStateBothRears = wheelStateBothRears :=
  ⟨Or.inl rfl,
   claim_C5_time_gating cfgDefault gearsDefault 0x100 dataFF (-1) 2100 3
     wheelStateBothRears (Or.inl rfl)⟩

/-- C6: each readout either returns a sample and resets exactly the
update mask, or returns nothing and changes nothing (outputs included);
after a successful readout an immediately following readout returns
nothing. -/
theorem claim_C6_consume_once (s : WHEEL_SPEED_STRUCT) (out : CAR_SPEED_OUT) :
    ((car_get_wheel_speed s out).2.2 = 1 ∨ (car_get_wheel_speed s out).2.2 = 0) ∧
    ((car_get_wheel_speed s out).2.2 = 1 →
      (car_get_wheel_speed s out).1 = { s with update := 0 }) ∧
    ((car_get_wheel_speed s out).2.2 = 0 →
      (car_get_wheel_speed s out).1 = s ∧ (car_get_wheel_speed s out).2.1 = out) ∧
    ((car_get_wheel_speed s out).2.2 = 1 →
      (car_get_wheel_speed ((car_get_wheel_speed s out).1)
        ((car_get_wheel_speed s out).2.1)).2.2 = 0) := by
  by_cases h : 3 ≤ s.update
  · refine ⟨?_, ?_, ?_, ?_⟩ <;> simp [car_get_wheel_speed, h]
  · refine ⟨?_, ?_, ?_, ?_⟩ <;> simp [car_get_wheel_speed, h]

/-- C6 witness: readout of a populated state yields a sample, and the
immediately repeated readout yields nothing. -/
theorem claim_C6_witness :
    (car_get_wheel_speed wheelStateCombinedOnly outZero).2.2 = 1 ∧
    (car_get_wheel_speed wheelStateCombinedOnly outZero).1 =
      { wheelStateCombinedOnly with update := 0 } ∧
    (car_get_wheel_speed ((car_get_wheel_speed wheelStateCombinedOnly outZero).1)
      ((car_get_wheel_speed wheelStateCombinedOnly outZero).2.1)).2.2 = 0 :=
  ⟨by rfl,
   (claim_C6_consume_once wheelStateCombinedOnly outZero).2.1 (by rfl),
   (claim_C6_consume_once wheelStateCombinedOnly outZero).2.2.2 (by rfl)⟩

/-- C10: a gear-selector descriptor (`source = 3`) can change only the
direction flag: the three speed fields, the update mask, the stored
week and the stored timestamp are untouched by its processing, whether
or not the decoded value matches a gear reference. -/
theorem claim_C10_gear_only_fwd (gears : Fin 4 → ℚ) (stdId : Nat)
    (data : Nat → Nat) (week : Int) (timestamp : ℚ) (m : odo_mesg_t)
    (s : WHEEL_SPEED_STRUCT) (h : m.source = 3) :
    (car_process_one gears stdId data week timestamp m s).speed_RR = s.speed_RR ∧
    (car_process_one gears stdId data week timestamp m s).speed_RL = s.speed_RL ∧
    (car_process_one gears stdId data week timestamp m s).speed_combined
      = s.speed_combined ∧
    (car_process_one gears stdId data week timestamp m s).update = s.update ∧
    (car_process_one gears stdId data week timestamp m s).week = s.week ∧
    (car_process_one gears stdId data week timestamp m s).timestamp = s.timestamp := by
  simp only [car_process_one, h]
  split_ifs <;> simp_all

/-- C10 witness: a gear frame matching reference position 1 flips the
flag to reverse but leaves every other field of a populated state
unchanged. -/
theorem claim_C10_witness :
    mesgGear.source = 3 ∧
    (car_process_one gearsDefault 0x200 dataFF 2100 250 mesgGear
      wheelStateBothRears).update = wheelStateBothRears.update ∧
    (car_process_one gearsDefault 0x200 dataFF 2100 250 mesgGear
      wheelStateBothRears).timestamp = wheelStateBothRears.timestamp :=
  ⟨rfl,
   (claim_C10_gear_only_fwd gearsDefault 0x200 dataFF 2100 250 mesgGear
     wheelStateBothRears rfl).2.2.2.1,
   (claim_C10_gear_only_fwd gearsDefault 0x200 dataFF 2100 250 mesgGear
     wheelStateBothRears rfl).2.2.2.2.2⟩

/-- Handler state before a pulse: msec below the 500 threshold. -/
def ppsStateLow : pps_handler_state :=
  { g_MCU_time := { time := 1000, msec := 100 }, usCnt := 7, sensorCNT := 9,
    g_pps_flag := 0 }

/-- A latched observation time base. -/
def obsRcvZero : mcu_time_base_t := { time := 0, msec := 0 }

/-- C7, counterexample: on a falling edge with the pre-reset
millisecond counter below 500 but the semaphore handle null
(`dataAcqSem == 0`), the handler does not release the synchronization
signal — refuting "releases if and only if the pre-reset millisecond
counter is below 500". -/
theorem claim_C7_counterexample :
    ppsStateLow.g_MCU_time.msec < 500 ∧
    (ST_PPS_IRQ 0 0 0 0 obsRcvZero ppsStateLow).2 = false :=
  ⟨by decide, by rfl⟩

/-- C7, amended: on every falling edge the handler releases the
data-acquisition signal iff the pre-reset millisecond counter is below
500 **and** the semaphore handle is non-null, and in every case resets
the microsecond counter to 0 and sets the millisecond counter to the
anchor 500. -/
theorem claim_C7_falling_edge_release (dataAcqSem gnss_flag : Nat) (obs_time : Int)
    (obsRcv : mcu_time_base_t) (s : pps_handler_state) :
    ((ST_PPS_IRQ 0 dataAcqSem gnss_flag obs_time obsRcv s).2 = true ↔
      (s.g_MCU_time.msec < 500 ∧ dataAcqSem ≠ 0)) ∧
    (ST_PPS_IRQ 0 dataAcqSem gnss_flag obs_time obsRcv s).1.usCnt = 0 ∧
    (ST_PPS_IRQ 0 dataAcqSem gnss_flag obs_time obsRcv s).1.g_MCU_time.msec = 500 := by
  refine ⟨?_, ?_, ?_⟩ <;> simp only [ST_PPS_IRQ, if_pos rfl] <;> split_ifs <;>
    simp_all

/-- C8: on a falling edge the absolute-time anchor becomes the freshly
resolved value exactly when the signal-valid flag is set, the elapsed
time test (taken after the counter reset, i.e. `500 - latched msec`) is
non-negative, and the two latched absolute times agree; otherwise the
counters are still reset and the anchor is unchanged. -/
theorem claim_C8_anchor_update_guard (dataAcqSem gnss_flag : Nat) (obs_time : Int)
    (obsRcv : mcu_time_base_t) (s : pps_handler_state) :
    (ST_PPS_IRQ 0 dataAcqSem gnss_flag obs_time obsRcv s).1.g_MCU_time.time =
      (if gnss_flag ≠ 0 ∧ 0 ≤ (500 : Int) - obsRcv.msec ∧
          s.g_MCU_time.time = obsRcv.time
        then obs_time else s.g_MCU_time.time) ∧
    (ST_PPS_IRQ 0 dataAcqSem gnss_flag obs_time obsRcv s).1.usCnt = 0 ∧
    (ST_PPS_IRQ 0 dataAcqSem gnss_flag obs_time obsRcv s).1.sensorCNT = 0 ∧
    (ST_PPS_IRQ 0 dataAcqSem gnss_flag obs_time obsRcv s).1.g_MCU_time.msec = 500 := by
  refine ⟨?_, ?_, ?_, ?_⟩ <;> simp only [ST_PPS_IRQ, if_pos rfl] <;> split_ifs <;>
    simp_all

/-- C9: on a rising edge (pin read non-zero) the handler performs no
synchronization logic: apart from setting the pulse flag, the state —
millisecond counter, absolute-time anchor, microsecond counter and
sensor-timer count — is unchanged and no signal is released. -/
theorem claim_C9_rising_edge_noop (PPSstate dataAcqSem gnss_flag : Nat)
    (obs_time : Int) (obsRcv : mcu_time_base_t) (s : pps_handler_state)
    (h : PPSstate ≠ 0) :
    ST_PPS_IRQ PPSstate dataAcqSem gnss_flag obs_time obsRcv s =
      ({ s with g_pps_flag := 1 }, false) := by
  simp only [ST_PPS_IRQ, if_neg h]

/-- C9 witness: a concrete rising edge leaves the concrete state
unchanged apart from the pulse flag and releases nothing. -/
theorem claim_C9_witness :
    (1 : Nat) ≠ 0 ∧
    ST_PPS_IRQ 1 5 1 42 obsRcvZero ppsStateLow =
      ({ ppsStateLow with g_pps_flag := 1 }, false) :=
  ⟨by decide, claim_C9_rising_edge_noop 1 5 1 42 obsRcvZero ppsStateLow (by decide)⟩

end OpenRTK
